import Mathlib

/-!
Verification of the voice session coordinator of mcp-claude-say.

Shallow embedding of:
* src/listen/audio.py (AudioCapture),
* src/shared/coordination.py (signal layer, VoiceCoordinator),
* src/listen/simple_ptt.py (SimplePTTRecorder.stop),
* src/listen/mcp_server.py (interrupt_conversation and its imports),
* src/listen/silero_vad.py and src/listen/vad_light.py (VAD state machine),
* src/listen/ptt_controller.py (PTTController).

Conventions: object state is passed explicitly; filesystem markers are
Booleans; timestamps are naturals (an arbitrary integral unit such as
milliseconds); a threading.Timer is modelled as a stored deadline that
fires punctually at that deadline; audio samples are naturals (their
values are never inspected by the coordinator code).
-/

namespace VoiceSpec

/-!
### AudioCapture — src/listen/audio.py

Fields mirror the attributes of class AudioCapture: the sounddevice
stream handle (a handle identifier, none when the stream is closed), the
running flag, and the frame buffer.  forceCloseCalls counts how often a
hardware release (the stream stop plus close in _force_close_stream) was
actually attempted on a live handle.
-/

structure AudioCapture where
  stream : Option Nat
  isRunning : Bool
  buffer : List (List Nat)
  forceCloseCalls : Nat
  deriving DecidableEq, Repr

/-- Embeds AudioCapture._force_close_stream (audio.py lines 50-65): if a
stream handle is present it is stopped, closed and nulled; otherwise the
method does nothing. -/
def forceCloseStream (s : AudioCapture) : AudioCapture :=
  match s.stream with
  | some _ => { s with stream := none, forceCloseCalls := s.forceCloseCalls + 1 }
  | none => s

/-- Embeds AudioCapture.start (audio.py lines 87-111).  newStream is the
outcome of opening the hardware stream: some handle on success, none when
sd.InputStream raises.  On failure the flag is rolled back and the stream
force-closed before the exception propagates (the returned state is the
state observed after the raise). -/
def startAC (s : AudioCapture) (newStream : Option Nat) : AudioCapture :=
  if s.isRunning then s
  else
    let s1 := { s with isRunning := true, buffer := [] }
    match newStream with
    | some h => { s1 with stream := some h }
    | none => forceCloseStream { s1 with isRunning := false }

/-- Embeds AudioCapture.stop (audio.py lines 113-128): an early return when
the running flag is clear, otherwise flag clear followed by
_force_close_stream. -/
def stopAC (s : AudioCapture) : AudioCapture :=
  if s.isRunning then forceCloseStream { s with isRunning := false }
  else s

/-- Embeds AudioCapture._audio_callback (audio.py lines 67-85) restricted to
its buffer effect: the chunk is appended to the buffer (the on_audio hook and
the queue do not feed get_buffer). -/
def audioCallback (frame : List Nat) (s : AudioCapture) : AudioCapture :=
  { s with buffer := s.buffer ++ [frame] }

/-- Embeds AudioCapture.get_buffer (audio.py lines 130-143): returns the
concatenation of all buffered chunks and empties the buffer. -/
def getBuffer (s : AudioCapture) : List Nat × AudioCapture :=
  (s.buffer.flatten, { s with buffer := [] })

/-- Embeds AudioCapture.clear_buffer (audio.py lines 145-155) restricted to
its buffer effect. -/
def clearBuffer (s : AudioCapture) : AudioCapture :=
  { s with buffer := [] }

/-- One public operation on an AudioCapture instance. -/
inductive ACOp where
  | start (newStream : Option Nat)
  | stop
  | push (frame : List Nat)
  | takeBuffer
  | clearBuf
  deriving DecidableEq, Repr

def applyACOp (s : AudioCapture) : ACOp → AudioCapture
  | .start h => startAC s h
  | .stop => stopAC s
  | .push f => audioCallback f s
  | .takeBuffer => (getBuffer s).2
  | .clearBuf => clearBuffer s

/-- State built by AudioCapture.__init__ (audio.py lines 31-44). -/
def initCapture : AudioCapture := ⟨none, false, [], 0⟩

/-- A reachable AudioCapture state: the fold of any operation sequence over
the freshly constructed instance. -/
def runCapture (ops : List ACOp) : AudioCapture :=
  ops.foldl applyACOp initCapture

/-- Bookkeeping invariant of audio.py: whenever the running flag is clear,
the stream handle is null. -/
def ACInv (s : AudioCapture) : Prop := s.isRunning = false → s.stream = none

lemma acInv_apply (s : AudioCapture) (op : ACOp) (h : ACInv s) :
    ACInv (applyACOp s op) := by
  cases op with
  | start h? =>
    cases h? with
    | some v =>
      simp only [applyACOp, startAC]
      split
      · exact h
      · intro hr; simp at hr
    | none =>
      simp only [applyACOp, startAC]
      split
      · exact h
      · intro _
        simp only [forceCloseStream]
        split <;> simp_all [ACInv]
  | stop =>
    simp only [applyACOp, stopAC]
    split
    · simp only [forceCloseStream]
      split <;> simp_all [ACInv]
    · exact h
  | push f => intro hr; exact h hr
  | takeBuffer => intro hr; exact h hr
  | clearBuf => intro hr; exact h hr

lemma acInv_foldl (ops : List ACOp) :
    ∀ s : AudioCapture, ACInv s → ACInv (ops.foldl applyACOp s) := by
  induction ops with
  | nil => intro s h; exact h
  | cons op rest ih =>
    intro s h
    exact ih (applyACOp s op) (acInv_apply s op h)

lemma acInv_run (ops : List ACOp) : ACInv (runCapture ops) :=
  acInv_foldl ops initCapture (by intro _; rfl)

lemma stopAC_buffer (s : AudioCapture) : (stopAC s).buffer = s.buffer := by
  simp only [stopAC]
  split
  · simp only [forceCloseStream]; split <;> rfl
  · rfl

lemma pushes_buffer (fs : List (List Nat)) :
    ∀ s : AudioCapture,
      (fs.foldl (fun t f => audioCallback f t) s).buffer = s.buffer ++ fs := by
  induction fs with
  | nil => intro s; simp
  | cons f rest ih =>
    intro s
    rw [List.foldl_cons, ih]
    simp [audioCallback]

lemma flatten_replicate_singleton (n a : Nat) :
    (List.replicate n [a]).flatten = List.replicate n a := by
  induction n with
  | zero => rfl
  | succ k ih => simp [List.replicate_succ, ih]

/-- C1 counterexample.  The claim quantifies over every prior state,
including inconsistent bookkeeping.  On the state whose running flag is
clear but whose stream handle is live, stop() returns through its early
exit (audio.py line 119) without attempting any hardware release and with
the handle still non-null; and on the reachable double-stop sequence the
second stop() likewise attempts no release (only one force-close ever
happened). -/
theorem stop_not_always_release :
    (stopAC ⟨some 7, false, [], 0⟩).stream = some 7
    ∧ (stopAC ⟨some 7, false, [], 0⟩).forceCloseCalls = 0
    ∧ (runCapture [ACOp.start (some 5), ACOp.stop, ACOp.stop]).forceCloseCalls = 1 := by
  refine ⟨rfl, rfl, rfl⟩

/-- C1 amended.  stop() attempts hardware release exactly when the running
flag is set; from every reachable state (every operation sequence applied
to a fresh instance) the state after stop() has the running flag clear and
a null handle, because reachable not-running states always carry a null
handle; a stop() in a not-running state is an early-returning no-op. -/
theorem stop_postcondition_reachable (ops : List ACOp) :
    (stopAC (runCapture ops)).isRunning = false
    ∧ (stopAC (runCapture ops)).stream = none
    ∧ ((runCapture ops).isRunning = false → stopAC (runCapture ops) = runCapture ops)
    ∧ ((runCapture ops).isRunning = true →
        (stopAC (runCapture ops)).forceCloseCalls
          = (runCapture ops).forceCloseCalls + 1
          ∨ (runCapture ops).stream = none) := by
  have hinv := acInv_run ops
  set s := runCapture ops with hs
  by_cases hr : s.isRunning
  · refine ⟨?_, ?_, ?_, ?_⟩
    · simp only [stopAC, hr, if_true, forceCloseStream]
      split <;> rfl
    · simp only [stopAC, hr, if_true, forceCloseStream]
      split <;> simp_all
    · intro h; rw [h] at hr; cases hr
    · intro _
      simp only [stopAC, hr, if_true, forceCloseStream]
      cases hst : s.stream with
      | some v => left; simp [hst]
      | none => right; rfl
  · have hr' : s.isRunning = false := by simpa using hr
    have hstream := hinv hr'
    refine ⟨?_, ?_, ?_, ?_⟩
    · simp [stopAC, hr']
    · simp [stopAC, hr', hstream]
    · intro _; simp [stopAC, hr']
    · intro h; rw [h] at hr'; cases hr'

/-- C1 amended, witness: the double-stop sequence. -/
theorem stop_postcondition_reachable_witness :
    (runCapture [ACOp.start (some 5), ACOp.stop]).isRunning = false
    ∧ stopAC (runCapture [ACOp.start (some 5), ACOp.stop])
        = runCapture [ACOp.start (some 5), ACOp.stop] :=
  ⟨by decide, (stop_postcondition_reachable [ACOp.start (some 5), ACOp.stop]).2.2.1 (by decide)⟩

/-- C3 counterexample.  The claim asserts a configured bound on the buffer
with the oldest frames dropped past it.  No such bound exists: for every
candidate bound there is a push sequence after which get_buffer, called
right after stop(), returns strictly more samples than the bound, so no
frame is ever dropped. -/
theorem no_configured_buffer_cap :
    ¬ ∃ B : Nat, ∀ fs : List (List Nat),
      ((getBuffer (stopAC (fs.foldl (fun t f => audioCallback f t)
          (clearBuffer initCapture)))).1).length ≤ B := by
  rintro ⟨B, hB⟩
  have h := hB (List.replicate (B + 1) [0])
  rw [getBuffer, stopAC_buffer, pushes_buffer] at h
  simp only [clearBuffer, initCapture, List.nil_append,
    flatten_replicate_singleton, List.length_replicate] at h
  omega

/-- C3 amended.  Starting from any state, after a clear_buffer followed by
any sequence of audio-callback appends and a stop(), get_buffer returns
exactly the concatenation of all samples pushed since the clear — nothing
is dropped, there is no cap — and leaves the buffer empty. -/
theorem getBuffer_after_stop_exact (s : AudioCapture) (fs : List (List Nat)) :
    (getBuffer (stopAC (fs.foldl (fun t f => audioCallback f t)
        (clearBuffer s)))).1 = fs.flatten
    ∧ (getBuffer (stopAC (fs.foldl (fun t f => audioCallback f t)
        (clearBuffer s)))).2.buffer = [] := by
  constructor
  · rw [getBuffer, stopAC_buffer, pushes_buffer]
    simp [clearBuffer]
  · rfl

/-!
### Signal layer and VoiceCoordinator — src/shared/coordination.py

The filesystem markers /tmp/claude-voice-stop and /tmp/claude-tts-complete
are Booleans.  ttsProcKilled records that force_stop_tts issued its pkill
of the live say/afplay playback processes; directStopCalls counts direct
in-process invocations of the say server stop_speaking (the first branch
of signal_stop_speaking, taken only when that import succeeds).
-/

structure CoordWorld where
  stopMarker : Bool
  ttsCompleteMarker : Bool
  ttsProcKilled : Bool
  directStopCalls : Nat
  deriving DecidableEq, Repr

/-- Embeds force_stop_tts (coordination.py lines 36-72): kills the live
say/afplay playback processes and touches the stop marker; always returns
true. -/
def forceStopTts (w : CoordWorld) : CoordWorld × Bool :=
  ({ w with ttsProcKilled := true, stopMarker := true }, true)

/-- Embeds signal_stop_speaking (coordination.py lines 75-115).
directImportOk tells whether the say server module is importable in this
process (method 1, a direct stop_speaking call); otherwise the stop marker
file is touched (method 2).  Neither branch touches any playback process. -/
def signalStopSpeaking (directImportOk : Bool) (w : CoordWorld) : CoordWorld × Bool :=
  if directImportOk then ({ w with directStopCalls := w.directStopCalls + 1 }, true)
  else ({ w with stopMarker := true }, true)

/-- Embeds check_stop_signal (coordination.py lines 118-131): if the stop
marker exists it is removed and true is returned, otherwise false with the
world untouched. -/
def checkStopSignal (w : CoordWorld) : Bool × CoordWorld :=
  if w.stopMarker then (true, { w with stopMarker := false }) else (false, w)

/-- Embeds clear_tts_complete_signal (coordination.py lines 241-248). -/
def clearTtsCompleteSignal (w : CoordWorld) : CoordWorld :=
  { w with ttsCompleteMarker := false }

/-- Flags of class VoiceCoordinator (coordination.py lines 251-291). -/
structure VoiceCoordinator where
  listening : Bool
  speaking : Bool
  deriving DecidableEq, Repr

/-- Embeds the is_speaking property (coordination.py line 286): the local
flag or the cached probe for a running say process, here an input. -/
def coordIsSpeaking (c : VoiceCoordinator) (sayProcRunning : Bool) : Bool :=
  c.speaking || sayProcRunning

/-- Embeds VoiceCoordinator.on_speech_detected (coordination.py lines
288-291): when is_speaking holds it calls signal_stop_speaking, otherwise
nothing happens. -/
def onSpeechDetected (c : VoiceCoordinator) (sayProcRunning directImportOk : Bool)
    (w : CoordWorld) : CoordWorld :=
  if coordIsSpeaking c sayProcRunning then (signalStopSpeaking directImportOk w).1 else w

/-- C2 counterexample.  With is_speaking true, on_speech_detected does not
issue force_stop_tts: the live playback process is not terminated (only the
poll-granularity stop marker is set), whereas force_stop_tts on the same
world does terminate it. -/
theorem on_speech_detected_not_force_stop :
    (onSpeechDetected ⟨false, true⟩ false false ⟨false, false, false, 0⟩).ttsProcKilled
        = false
    ∧ (forceStopTts ⟨false, false, false, 0⟩).1.ttsProcKilled = true
    ∧ onSpeechDetected ⟨false, true⟩ false false ⟨false, false, false, 0⟩
        ≠ (forceStopTts ⟨false, false, false, 0⟩).1 := by
  refine ⟨rfl, rfl, by decide⟩

/-- C2 amended.  When the VAD reports speech while is_speaking is true (the
local flag or the say-process probe), the coordinator immediately and
unconditionally issues signal_stop_speaking — the poll-granularity variant:
it sets the stop marker (or calls the say server stop_speaking directly
when importable) and never terminates live playback; when is_speaking is
false it does nothing. -/
theorem on_speech_detected_signals_stop (c : VoiceCoordinator)
    (say d : Bool) (w : CoordWorld) :
    ((c.speaking || say) = true →
      onSpeechDetected c say d w = (signalStopSpeaking d w).1
      ∧ (d = false → (onSpeechDetected c say d w).stopMarker = true)
      ∧ (d = true →
          (onSpeechDetected c say d w).directStopCalls = w.directStopCalls + 1)
      ∧ (onSpeechDetected c say d w).ttsProcKilled = w.ttsProcKilled)
    ∧ ((c.speaking || say) = false → onSpeechDetected c say d w = w) := by
  constructor
  · intro hsp
    have h1 : onSpeechDetected c say d w = (signalStopSpeaking d w).1 := by
      simp [onSpeechDetected, coordIsSpeaking, hsp]
    refine ⟨h1, ?_, ?_, ?_⟩
    · intro hd; rw [h1]; simp [signalStopSpeaking, hd]
    · intro hd; rw [h1]; simp [signalStopSpeaking, hd]
    · rw [h1]; simp only [signalStopSpeaking]; split <;> rfl
  · intro hsp
    simp [onSpeechDetected, coordIsSpeaking, hsp]

/-- C2 amended, witness: speaking coordinator, separate processes. -/
theorem on_speech_detected_signals_stop_witness :
    (((⟨false, true⟩ : VoiceCoordinator).speaking || false) = true)
    ∧ (onSpeechDetected ⟨false, true⟩ false false ⟨false, false, false, 0⟩).stopMarker
        = true :=
  ⟨by decide,
    (((on_speech_detected_signals_stop ⟨false, true⟩ false false
      ⟨false, false, false, 0⟩).1 (by decide)).2.1 (by decide))⟩

/-- C7 confirmed.  check_stop_signal returns true and removes the marker
exactly when the marker exists at call time, returns false leaving the
world unchanged otherwise, and touches nothing but the marker; in
particular after a signal_stop_speaking issued from a separate process
(while the consumer is inactive) the next check observes and clears it and
an immediately following second check returns false. -/
theorem check_stop_signal_check_and_clear (w : CoordWorld) :
    ((checkStopSignal w).1 = w.stopMarker)
    ∧ ((checkStopSignal w).2 = { w with stopMarker := false })
    ∧ (w.stopMarker = false → (checkStopSignal w).2 = w)
    ∧ ((checkStopSignal (signalStopSpeaking false w).1).1 = true)
    ∧ ((checkStopSignal (signalStopSpeaking false w).1).2
        = { w with stopMarker := false })
    ∧ ((checkStopSignal (checkStopSignal (signalStopSpeaking false w).1).2).1
        = false)
    ∧ ((checkStopSignal (checkStopSignal (signalStopSpeaking false w).1).2).2
        = (checkStopSignal (signalStopSpeaking false w).1).2) := by
  obtain ⟨m, t, k, d⟩ := w
  cases m <;> simp [checkStopSignal, signalStopSpeaking]

/-- C7 witness: marker initially absent. -/
theorem check_stop_signal_check_and_clear_witness :
    ((checkStopSignal ⟨false, false, false, 0⟩).2
        = (⟨false, false, false, 0⟩ : CoordWorld))
    ∧ (checkStopSignal (signalStopSpeaking false ⟨false, false, false, 0⟩).1).1
        = true :=
  ⟨(check_stop_signal_check_and_clear ⟨false, false, false, 0⟩).2.2.1 (by decide),
    (check_stop_signal_check_and_clear ⟨false, false, false, 0⟩).2.2.2.1⟩

/-!
### SimplePTTRecorder.stop — src/listen/simple_ptt.py lines 198-257

The side effects of stop() are recorded in order in an event trace.  The
lazy transcriber lookup (_get_transcriber, lines 78-117) either yields a
backend or raises RuntimeError; transcriberAvailable tells which, and the
backend itself is an arbitrary function from samples to text.  A raised
exception is the Except.error result, carrying the state and trace at the
raise point.
-/

inductive StopEvent where
  | vadStopped
  | micReleased
  | audioSaved
  | transcribed
  | readyCallback
  deriving DecidableEq, Repr

/-- State of a SimplePTTRecorder relevant to stop(). -/
structure RecState where
  isRecording : Bool
  vadLoaded : Bool
  audio : AudioCapture
  transcriberAvailable : Bool
  hasReadyCallback : Bool
  lastTranscription : Option String
  deriving Repr

/-- Embeds SimplePTTRecorder.stop.  Order follows the source: early return
when not recording; flag clear; VAD stop; get_buffer before the microphone
stop; microphone stop and release; the empty-buffer early return with the
explicit None result; audio file save; transcriber lookup (raises when no
backend is available — mic already released); transcription; ready
callback; the text is returned. -/
def recStop (transcribe : List Nat → String) (s : RecState) :
    RecState × Except Unit (Option String) × List StopEvent :=
  if s.isRecording = false then (s, .ok none, [])
  else
    let s1 := { s with isRecording := false }
    let ev1 : List StopEvent := if s1.vadLoaded then [.vadStopped] else []
    let taken := getBuffer s1.audio
    let audioData := taken.1
    let a2 := stopAC taken.2
    let ev2 := ev1 ++ [.micReleased]
    if audioData.length = 0 then
      ({ s1 with audio := a2 }, .ok none, ev2)
    else
      let ev3 := ev2 ++ [.audioSaved]
      if s1.transcriberAvailable = false then
        ({ s1 with audio := a2 }, .error (), ev3)
      else
        let text := transcribe audioData
        let ev4 := ev3 ++ [.transcribed]
        let s4 := { s1 with audio := a2, lastTranscription := some text }
        if s4.hasReadyCallback then (s4, .ok (some text), ev4 ++ [.readyCallback])
        else (s4, .ok (some text), ev4)

/-- Holds when the first microphone-or-transcription event of the trace is
the microphone release (vacuously when neither occurs). -/
def micReleasedFirst : List StopEvent → Bool
  | [] => true
  | StopEvent.transcribed :: _ => false
  | StopEvent.micReleased :: _ => true
  | _ :: rest => micReleasedFirst rest

lemma micFirst_trace (b : Bool) (rest : List StopEvent) :
    micReleasedFirst ((if b then [StopEvent.vadStopped] else [])
      ++ StopEvent.micReleased :: rest) = true := by
  cases b <;> rfl

lemma recStop_trace (s : RecState) (f : List Nat → String) :
    (recStop f s).2.2 = []
    ∨ ∃ rest, (recStop f s).2.2
        = (if s.vadLoaded then [StopEvent.vadStopped] else [])
          ++ StopEvent.micReleased :: rest := by
  simp only [recStop]
  split
  · exact Or.inl rfl
  · split
    · exact Or.inr ⟨[], rfl⟩
    · split
      · exact Or.inr ⟨[StopEvent.audioSaved], by simp⟩
      · split
        · exact Or.inr
            ⟨[StopEvent.audioSaved, StopEvent.transcribed, StopEvent.readyCallback],
              by simp⟩
        · exact Or.inr ⟨[StopEvent.audioSaved, StopEvent.transcribed], by simp⟩

lemma recStop_empty_eq (s : RecState) (f : List Nat → String)
    (h1 : s.isRecording = true) (h2 : s.audio.buffer.flatten = []) :
    recStop f s
      = ({ s with isRecording := false, audio := stopAC (getBuffer s.audio).2 },
          Except.ok none,
          (if s.vadLoaded then [StopEvent.vadStopped] else [])
            ++ [StopEvent.micReleased]) := by
  simp [recStop, h1, getBuffer, h2]

lemma recStop_error_eq (s : RecState) (f : List Nat → String)
    (h1 : s.isRecording = true) (h2 : s.audio.buffer.flatten ≠ [])
    (h3 : s.transcriberAvailable = false) :
    recStop f s
      = ({ s with isRecording := false, audio := stopAC (getBuffer s.audio).2 },
          Except.error (),
          (if s.vadLoaded then [StopEvent.vadStopped] else [])
            ++ [StopEvent.micReleased, StopEvent.audioSaved]) := by
  simp only [recStop, h1, getBuffer, h3, Bool.true_eq_false, if_false]
  rw [if_neg]
  · simp
  · exact fun hc => h2 (List.length_eq_zero.mp hc)

/-- C8 confirmed.  In every call to stop(), the microphone release precedes
any transcription attempt — so a missing ASR engine surfaces as an
exception only after the mic is released — and with zero buffered samples
the ASR engine is not invoked, the ready callback is not invoked, and the
caller gets the explicit no-audio result None. -/
theorem rec_stop_release_order (s : RecState) (f : List Nat → String) :
    micReleasedFirst (recStop f s).2.2 = true
    ∧ (s.isRecording = true → s.audio.buffer.flatten = [] →
        (recStop f s).2.1 = Except.ok none
        ∧ StopEvent.transcribed ∉ (recStop f s).2.2
        ∧ StopEvent.readyCallback ∉ (recStop f s).2.2
        ∧ StopEvent.micReleased ∈ (recStop f s).2.2)
    ∧ (s.isRecording = true → s.transcriberAvailable = false →
        s.audio.buffer.flatten ≠ [] →
        (recStop f s).2.1 = Except.error ()
        ∧ StopEvent.micReleased ∈ (recStop f s).2.2) := by
  refine ⟨?_, ?_, ?_⟩
  · rcases recStop_trace s f with h | ⟨rest, h⟩
    · rw [h]; rfl
    · rw [h]; exact micFirst_trace s.vadLoaded rest
  · intro h1 h2
    rw [recStop_empty_eq s f h1 h2]
    refine ⟨rfl, ?_, ?_, ?_⟩ <;> cases hv : s.vadLoaded <;> simp [hv]
  · intro h1 h3 h2
    rw [recStop_error_eq s f h1 h2 h3]
    refine ⟨rfl, ?_⟩
    cases hv : s.vadLoaded <;> simp [hv]

/-- C8 witness: one application on a recording state with an empty buffer
and one on a recording state with audio but no available transcriber. -/
theorem rec_stop_release_order_witness :
    ((recStop (fun _ => "hello")
        ⟨true, false, ⟨some 0, true, [], 0⟩, false, false, none⟩).2.1
      = Except.ok none)
    ∧ (recStop (fun _ => "hello")
        ⟨true, false, ⟨some 0, true, [[1, 2]], 0⟩, false, false, none⟩).2.1
      = Except.error ()
    ∧ StopEvent.micReleased ∈ (recStop (fun _ => "hello")
        ⟨true, false, ⟨some 0, true, [[1, 2]], 0⟩, false, false, none⟩).2.2 :=
  ⟨((rec_stop_release_order
      ⟨true, false, ⟨some 0, true, [], 0⟩, false, false, none⟩
      (fun _ => "hello")).2.1 rfl rfl).1,
    (rec_stop_release_order
      ⟨true, false, ⟨some 0, true, [[1, 2]], 0⟩, false, false, none⟩
      (fun _ => "hello")).2.2 rfl rfl (by decide)⟩

/-!
### MCP server state — src/listen/mcp_server.py

The module-level globals of the listen server plus the singletons it
manipulates.  Controller presence and activity mirror get_ptt_controller()
and PTTController.is_active (state different from IDLE).
-/

/-- The PTTState enum of src/listen/ptt_controller.py lines 29-33. -/
inductive PTTState where
  | idle
  | listening
  | recording
  deriving DecidableEq, Repr

/-- Embeds PTTController.is_active for an optional global controller: a
missing controller counts as inactive. -/
def controllerIsActive : Option PTTState → Bool
  | none => false
  | some st => decide (st ≠ PTTState.idle)

/-- Module-level state of src/listen/mcp_server.py (lines 45-52) together
with the global recorder singleton and the signal world. -/
structure ServerState where
  currentStatus : String
  controller : Option PTTState
  recorderPresent : Bool
  autoStopEnabled : Bool
  autoStartEnabled : Bool
  autoStartThread : Bool
  transcriptionReadySet : Bool
  world : CoordWorld
  deriving DecidableEq, Repr

/-- Embeds interrupt_conversation (mcp_server.py lines 299-332): the
idempotency early exit when the status is ready and no controller is
active; otherwise signal the TTS stop, destroy the controller and the
recorder when a controller is active, reset all mode flags and the status,
set the transcription-ready event, and clear the tts-complete marker. -/
def interruptConversation (directImportOk : Bool) (s : ServerState) :
    ServerState × String :=
  if s.currentStatus = "ready" ∧ controllerIsActive s.controller = false then
    (s, "Conversation already idle.")
  else
    let w1 := (signalStopSpeaking directImportOk s.world).1
    let s1 :=
      if controllerIsActive s.controller then
        { s with controller := none, recorderPresent := false, world := w1 }
      else { s with world := w1 }
    let s2 := { s1 with currentStatus := "ready", autoStopEnabled := false,
                        autoStartEnabled := false, autoStartThread := false,
                        transcriptionReadySet := true }
    let s3 := { s2 with world := clearTtsCompleteSignal s2.world }
    (s3, "Conversation interrupted. Voice mode stopped.")

/-- C9 confirmed.  Calling interrupt_conversation while the system is idle
(status ready, no active PTT controller) raises nothing, returns the
already-idle status and leaves the state untouched, and a second
consecutive call does the same. -/
theorem interrupt_idempotent_when_idle (d : Bool) (s : ServerState)
    (h1 : s.currentStatus = "ready")
    (h2 : controllerIsActive s.controller = false) :
    interruptConversation d s = (s, "Conversation already idle.")
    ∧ interruptConversation d (interruptConversation d s).1
        = ((interruptConversation d s).1, "Conversation already idle.") := by
  have h : interruptConversation d s = (s, "Conversation already idle.") := by
    simp [interruptConversation, h1, h2]
  exact ⟨h, by rw [h]; simp [interruptConversation, h1, h2]⟩

/-- C9 witness: an idle server state. -/
theorem interrupt_idempotent_when_idle_witness :
    interruptConversation false
        ⟨"ready", none, false, false, false, false, false, ⟨false, false, false, 0⟩⟩
      = (⟨"ready", none, false, false, false, false, false, ⟨false, false, false, 0⟩⟩,
          "Conversation already idle.") :=
  (interrupt_idempotent_when_idle false
    ⟨"ready", none, false, false, false, false, false, ⟨false, false, false, 0⟩⟩
    rfl rfl).1

/-!
### Coordination exports versus listen-server imports — C10

The names below are transcribed from the source: the module-level
functions defined by src/shared/coordination.py, the two signal marker
paths it declares (lines 31-33), and the names src/listen/mcp_server.py
imports from shared.coordination (lines 32-35).
-/

/-- Module-level function and class names defined in
src/shared/coordination.py. -/
def coordinationModuleDefs : List String :=
  ["force_stop_tts", "signal_stop_speaking", "check_stop_signal",
   "is_speaking", "clear_stop_signal", "signal_tts_complete",
   "wait_for_tts_complete", "clear_tts_complete_signal",
   "VoiceCoordinator", "get_coordinator"]

/-- The signal marker paths declared in src/shared/coordination.py. -/
def coordinationSignalPaths : List String :=
  ["/tmp/claude-voice-stop", "/tmp/claude-tts-complete"]

/-- Names imported from shared.coordination by src/listen/mcp_server.py. -/
def listenServerCoordinationImports : List String :=
  ["signal_stop_speaking", "is_speaking", "force_stop_tts",
   "wait_for_tts_complete", "clear_tts_complete_signal",
   "clear_barge_in_signal"]

/-- C10: the listen server imports clear_barge_in_signal from the signal
layer — and _on_transcription_ready calls it — but the signal layer
defines no such operation and no barge-in-ack marker path (it declares
exactly two signals), so the import fails at server startup. -/
theorem clear_barge_in_signal_missing :
    "clear_barge_in_signal" ∈ listenServerCoordinationImports
    ∧ "clear_barge_in_signal" ∉ coordinationModuleDefs
    ∧ coordinationSignalPaths.length = 2
    ∧ "/tmp/claude-barge-in-ack" ∉ coordinationSignalPaths := by
  refine ⟨by decide, by decide, rfl, by decide⟩

/-!
### VAD state machine — src/listen/silero_vad.py and src/listen/vad_light.py

The two interchangeable backends differ only in their per-frame
classification front-end (the Silero ONNX model at 512-sample chunks
versus WebRTC VAD at 480-sample frames) and their defaults
(min_speech_frames 1 versus 3); their event handlers
_handle_speech_detected, _handle_silence_detected, _check_silence_timeout
and _trigger_speech_end are line-for-line identical, so they are embedded
once, over the stream of already-classified frames.  Each frame arrives at
a timestamp (a natural, in the unit of silenceTimeout); the
threading.Timer armed by _handle_silence_detected is a stored deadline:
now + (timeout - silence_duration).  A pending timer fires punctually at
its deadline — before any frame carrying a later timestamp, and after the
last frame if still pending.  Start and end callbacks are recorded as the
lists of firing times.
-/

structure VadCfg where
  silenceTimeout : Nat
  minSpeechFrames : Nat
  deriving DecidableEq, Repr

structure VadState where
  isSpeaking : Bool
  speechFrameCount : Nat
  lastSpeechTime : Option Nat
  silenceTimer : Option Nat
  startEvents : List Nat
  endEvents : List Nat
  deriving DecidableEq, Repr

/-- Embeds _trigger_speech_end (silero_vad.py lines 254-261, vad_light.py
lines 153-160). -/
def triggerSpeechEnd (now : Nat) (s : VadState) : VadState :=
  { s with isSpeaking := false, silenceTimer := none, speechFrameCount := 0,
           endEvents := s.endEvents ++ [now] }

/-- Embeds _handle_speech_detected (silero_vad.py lines 210-225,
vad_light.py lines 109-124): record the speech time, bump the consecutive
count, cancel any pending silence timer, and confirm speech start once the
count reaches min_speech_frames. -/
def handleSpeechDetected (cfg : VadCfg) (now : Nat) (s : VadState) : VadState :=
  let s1 := { s with lastSpeechTime := some now,
                     speechFrameCount := s.speechFrameCount + 1,
                     silenceTimer := none }
  if s1.isSpeaking = false ∧ cfg.minSpeechFrames ≤ s1.speechFrameCount then
    { s1 with isSpeaking := true, startEvents := s1.startEvents ++ [now] }
  else s1

/-- Embeds _handle_silence_detected (silero_vad.py lines 227-244,
vad_light.py lines 126-143): reset the consecutive speech count; when
speaking, either the silence timeout is already reached (speech end fires
now) or a timer is armed for the remaining duration unless one is already
pending. -/
def handleSilenceDetected (cfg : VadCfg) (now : Nat) (s : VadState) : VadState :=
  let s1 := { s with speechFrameCount := 0 }
  match s1.isSpeaking, s1.lastSpeechTime with
  | true, some t =>
      if cfg.silenceTimeout ≤ now - t then triggerSpeechEnd now s1
      else if s1.silenceTimer = none then
        { s1 with silenceTimer := some (now + (cfg.silenceTimeout - (now - t))) }
      else s1
  | _, _ => s1

/-- Embeds _check_silence_timeout (silero_vad.py lines 246-252, vad_light.py
lines 145-151), the body run when the armed timer fires. -/
def checkSilenceTimeout (cfg : VadCfg) (now : Nat) (s : VadState) : VadState :=
  match s.isSpeaking, s.lastSpeechTime with
  | true, some t =>
      if cfg.silenceTimeout ≤ now - t then triggerSpeechEnd now s else s
  | _, _ => s

/-- Embeds the per-frame dispatch of process_audio (silero_vad.py lines
199-206, vad_light.py lines 96-105) on one already-classified frame. -/
def processFrame (cfg : VadCfg) (now : Nat) (isSpeech : Bool) (s : VadState) :
    VadState :=
  if isSpeech then handleSpeechDetected cfg now s
  else handleSilenceDetected cfg now s

/-- One step of the timed run: a pending timer whose deadline is not after
the incoming frame fires first (punctually, at the deadline), then the
frame is processed. -/
def stepVad (cfg : VadCfg) (s : VadState) (f : Nat × Bool) : VadState :=
  let s1 :=
    match s.silenceTimer with
    | some d => if d ≤ f.1 then checkSilenceTimeout cfg d s else s
    | none => s
  processFrame cfg f.1 f.2 s1

def stepsVad (cfg : VadCfg) (s : VadState) (fs : List (Nat × Bool)) : VadState :=
  fs.foldl (stepVad cfg) s

/-- A timer still pending after the last frame fires at its deadline. -/
def finishVad (cfg : VadCfg) (s : VadState) : VadState :=
  match s.silenceTimer with
  | some d => checkSilenceTimeout cfg d s
  | none => s

def runVad (cfg : VadCfg) (fs : List (Nat × Bool)) (s : VadState) : VadState :=
  finishVad cfg (stepsVad cfg s fs)

/-- State built by the backend constructors. -/
def vadStart : VadState := ⟨false, 0, none, none, [], []⟩

/-- Classified frames at regular timestamps t0, t0+per, t0+2*per, ... -/
def framesFrom (t0 per : Nat) : List Bool → List (Nat × Bool)
  | [] => []
  | b :: rest => (t0, b) :: framesFrom (t0 + per) per rest

/-- Frame-sequence predicate of the debounce rule: scanning the classified
frames with a running count of consecutive speech frames (starting from
credit c, reset to zero by every silent frame), some frame brings the
count up to n. -/
def firesFrom (n : Nat) : Nat → List Bool → Bool
  | _, [] => false
  | c, b :: rest =>
      if b then (if n ≤ c + 1 then true else firesFrom n (c + 1) rest)
      else firesFrom n 0 rest

lemma startEvents_trigger (now : Nat) (s : VadState) :
    (triggerSpeechEnd now s).startEvents = s.startEvents := rfl

lemma startEvents_check (cfg : VadCfg) (now : Nat) (s : VadState) :
    (checkSilenceTimeout cfg now s).startEvents = s.startEvents := by
  unfold checkSilenceTimeout
  split
  · split <;> rfl
  · rfl

lemma startEvents_handleSpeech (cfg : VadCfg) (now : Nat) (s : VadState) :
    ∃ l, (handleSpeechDetected cfg now s).startEvents = s.startEvents ++ l := by
  simp only [handleSpeechDetected]
  split
  · exact ⟨[now], rfl⟩
  · exact ⟨[], (List.append_nil _).symm⟩

lemma startEvents_handleSilence (cfg : VadCfg) (now : Nat) (s : VadState) :
    (handleSilenceDetected cfg now s).startEvents = s.startEvents := by
  simp only [handleSilenceDetected]
  split
  · split
    · rfl
    · split <;> rfl
  · rfl

lemma startEvents_processFrame (cfg : VadCfg) (now : Nat) (b : Bool) (s : VadState) :
    ∃ l, (processFrame cfg now b s).startEvents = s.startEvents ++ l := by
  unfold processFrame
  split
  · exact startEvents_handleSpeech cfg now s
  · exact ⟨[], by rw [List.append_nil, startEvents_handleSilence]⟩

lemma startEvents_step (cfg : VadCfg) (s : VadState) (f : Nat × Bool) :
    ∃ l, (stepVad cfg s f).startEvents = s.startEvents ++ l := by
  unfold stepVad
  rcases hTimer : s.silenceTimer with _ | d <;> simp only [hTimer]
  · exact startEvents_processFrame cfg f.1 f.2 s
  · split
    · obtain ⟨l, hl⟩ := startEvents_processFrame cfg f.1 f.2 (checkSilenceTimeout cfg d s)
      exact ⟨l, by rw [hl, startEvents_check]⟩
    · exact startEvents_processFrame cfg f.1 f.2 s

lemma startEvents_steps (cfg : VadCfg) (fs : List (Nat × Bool)) :
    ∀ s : VadState, ∃ l, (stepsVad cfg s fs).startEvents = s.startEvents ++ l := by
  induction fs with
  | nil => intro s; exact ⟨[], (List.append_nil _).symm⟩
  | cons f rest ih =>
    intro s
    obtain ⟨l1, h1⟩ := startEvents_step cfg s f
    obtain ⟨l2, h2⟩ := ih (stepVad cfg s f)
    exact ⟨l1 ++ l2, by
      simp only [stepsVad, List.foldl_cons] at h2 ⊢
      rw [h2, h1, List.append_assoc]⟩

lemma startEvents_run (cfg : VadCfg) (fs : List (Nat × Bool)) (s : VadState) :
    ∃ l, (runVad cfg fs s).startEvents = s.startEvents ++ l := by
  obtain ⟨l1, h1⟩ := startEvents_steps cfg fs s
  unfold runVad finishVad
  split
  · rw [startEvents_check, h1]; exact ⟨l1, rfl⟩
  · exact ⟨l1, h1⟩

lemma startEvents_run_ne (cfg : VadCfg) (fs : List (Nat × Bool)) (s : VadState)
    (h : s.startEvents ≠ []) : (runVad cfg fs s).startEvents ≠ [] := by
  obtain ⟨l, hl⟩ := startEvents_run cfg fs s
  rw [hl]
  intro hcontra
  exact h (List.append_eq_nil.mp hcontra).1

lemma prestart_run (cfg : VadCfg) :
    ∀ (fs : List (Nat × Bool)) (s : VadState),
      s.isSpeaking = false → s.silenceTimer = none → s.startEvents = [] →
      ((runVad cfg fs s).startEvents ≠ []
        ↔ firesFrom cfg.minSpeechFrames s.speechFrameCount (fs.map Prod.snd) = true) := by
  intro fs
  induction fs with
  | nil =>
    intro s hsp htimer hstart
    simp [runVad, stepsVad, finishVad, htimer, hstart, firesFrom]
  | cons f rest ih =>
    intro s hsp htimer hstart
    obtain ⟨now, b⟩ := f
    have hrun : runVad cfg ((now, b) :: rest) s = runVad cfg rest (stepVad cfg s (now, b)) := by
      simp [runVad, stepsVad]
    rw [hrun]
    have hstep : stepVad cfg s (now, b) = processFrame cfg now b s := by
      simp [stepVad, htimer]
    rw [hstep]
    cases b with
    | true =>
      by_cases hfire : cfg.minSpeechFrames ≤ s.speechFrameCount + 1
      · have hne : (processFrame cfg now true s).startEvents ≠ [] := by
          simp [processFrame, handleSpeechDetected, hsp, hfire, hstart]
        constructor
        · intro _
          simp [firesFrom, hfire]
        · intro _
          exact startEvents_run_ne cfg rest _ hne
      · have hform : processFrame cfg now true s
            = { s with lastSpeechTime := some now,
                       speechFrameCount := s.speechFrameCount + 1,
                       silenceTimer := none } := by
          simp [processFrame, handleSpeechDetected, hsp, hfire]
        rw [hform]
        rw [ih { s with lastSpeechTime := some now,
                        speechFrameCount := s.speechFrameCount + 1,
                        silenceTimer := none } hsp rfl hstart]
        simp [firesFrom, hfire]
    | false =>
      have hform : processFrame cfg now false s
          = { s with speechFrameCount := 0 } := by
        simp [processFrame, handleSilenceDetected, hsp]
      rw [hform]
      rw [ih { s with speechFrameCount := 0 } hsp htimer hstart]
      simp [firesFrom]

lemma firesFrom_of_replicate (n : Nat) (r : List Bool) :
    ∀ (k c : Nat), n ≤ c + k → 1 ≤ k →
      firesFrom n c (List.replicate k true ++ r) = true := by
  intro k
  induction k with
  | zero => intro c _ h1; omega
  | succ j ih =>
    intro c hck _
    rw [List.replicate_succ, List.cons_append]
    by_cases hc : n ≤ c + 1
    · simp [firesFrom, hc]
    · have hj : 1 ≤ j := by omega
      have hcj : n ≤ (c + 1) + j := by omega
      simp only [firesFrom, if_true, if_neg hc]
      exact ih (c + 1) hcj hj

lemma firesFrom_append_of_all (n : Nat) (m : List Bool)
    (hm : ∀ c, firesFrom n c m = true) :
    ∀ (l : List Bool) (c : Nat), firesFrom n c (l ++ m) = true := by
  intro l
  induction l with
  | nil => intro c; simpa using hm c
  | cons b rest ih =>
    intro c
    cases b with
    | true =>
      by_cases hc : n ≤ c + 1 <;> simp [firesFrom, hc, ih]
    | false =>
      simp [firesFrom, ih]

lemma firesFrom_decomp (n : Nat) :
    ∀ (bs : List Bool) (c : Nat), firesFrom n c bs = true →
      (∃ r, bs = List.replicate (n - c) true ++ r)
      ∨ (∃ l r, bs = l ++ List.replicate n true ++ r) := by
  intro bs
  induction bs with
  | nil => intro c h; simp [firesFrom] at h
  | cons b rest ih =>
    intro c h
    cases b with
    | true =>
      by_cases hc : n ≤ c + 1
      · left
        rcases Nat.lt_or_ge c n with hlt | hge
        · have : n - c = 1 := by omega
          exact ⟨rest, by simp [this]⟩
        · have : n - c = 0 := by omega
          exact ⟨true :: rest, by simp [this]⟩
      · simp only [firesFrom, if_true, if_neg hc] at h
        rcases ih (c + 1) h with ⟨r, hr⟩ | ⟨l, r, hlr⟩
        · left
          refine ⟨r, ?_⟩
          have hnc : n - c = (n - (c + 1)) + 1 := by omega
          rw [hnc, List.replicate_succ, List.cons_append, hr]
        · exact Or.inr ⟨true :: l, r, by rw [hlr]; simp⟩
    | false =>
      simp only [firesFrom, if_false, Bool.false_eq_true] at h
      rcases ih 0 h with ⟨r, hr⟩ | ⟨l, r, hlr⟩
      · exact Or.inr ⟨[false], r, by rw [hr]; simp⟩
      · exact Or.inr ⟨false :: l, r, by rw [hlr]; simp⟩

lemma firesFrom_iff_window (n : Nat) (hn : 1 ≤ n) (bs : List Bool) :
    firesFrom n 0 bs = true
      ↔ ∃ l r, bs = l ++ List.replicate n true ++ r := by
  constructor
  · intro h
    rcases firesFrom_decomp n bs 0 h with ⟨r, hr⟩ | ⟨l, r, hlr⟩
    · exact ⟨[], r, by simpa using hr⟩
    · exact ⟨l, r, hlr⟩
  · rintro ⟨l, r, rfl⟩
    rw [List.append_assoc]
    exact firesFrom_append_of_all n (List.replicate n true ++ r)
      (fun c => firesFrom_of_replicate n r n c (by omega) hn) l 0

/-- C5 confirmed.  From a freshly constructed VAD, on_speech_start fires
during a classified frame sequence exactly when the sequence contains a
window of min_speech_frames consecutive speech frames, and every silent
frame resets the consecutive speech count to zero.  The embedded handler
pair is shared verbatim by the Silero ONNX backend and the WebRTC backend,
so this holds for both. -/
theorem vad_speech_start_debounce (cfg : VadCfg)
    (h1 : 1 ≤ cfg.minSpeechFrames) (fs : List (Nat × Bool)) :
    ((runVad cfg fs vadStart).startEvents ≠ []
      ↔ ∃ l r, fs.map Prod.snd
          = l ++ List.replicate cfg.minSpeechFrames true ++ r)
    ∧ ∀ (now : Nat) (s : VadState),
        (handleSilenceDetected cfg now s).speechFrameCount = 0 := by
  constructor
  · rw [prestart_run cfg fs vadStart rfl rfl rfl]
    exact firesFrom_iff_window cfg.minSpeechFrames h1 (fs.map Prod.snd)
  · intro now s
    simp only [handleSilenceDetected]
    split
    · split
      · rfl
      · split <;> rfl
    · rfl

/-- C5 witness: the WebRTC default of three consecutive frames, met by the
third speech frame after an interrupting silent frame. -/
theorem vad_speech_start_debounce_witness :
    ((runVad ⟨1500, 3⟩
        (framesFrom 0 30 [true, true, false, true, true, true]) vadStart).startEvents ≠ []
      ↔ ∃ l r, (framesFrom 0 30 [true, true, false, true, true, true]).map Prod.snd
          = l ++ List.replicate (3 : Nat) true ++ r)
    ∧ ∀ (now : Nat) (s : VadState),
        (handleSilenceDetected ⟨1500, 3⟩ now s).speechFrameCount = 0 :=
  vad_speech_start_debounce ⟨1500, 3⟩ (by decide)
    (framesFrom 0 30 [true, true, false, true, true, true])

lemma handleSpeech_shape (cfg : VadCfg) (t0 c : Nat) (last : Option Nat)
    (st : List Nat) :
    ∃ st2,
      handleSpeechDetected cfg t0
          ⟨decide (cfg.minSpeechFrames ≤ c), c, last, none, st, []⟩
        = ⟨decide (cfg.minSpeechFrames ≤ c + 1), c + 1, some t0, none, st2, []⟩ := by
  by_cases h0 : cfg.minSpeechFrames ≤ c
  · have h : cfg.minSpeechFrames ≤ c + 1 := by omega
    exact ⟨st, by simp [handleSpeechDetected, h, h0]⟩
  · by_cases h : cfg.minSpeechFrames ≤ c + 1
    · exact ⟨st ++ [t0], by simp [handleSpeechDetected, h, h0]⟩
    · exact ⟨st, by simp [handleSpeechDetected, h, h0]⟩

lemma stepsVad_speech_phase (cfg : VadCfg) (per : Nat) :
    ∀ (j t0 c : Nat) (last : Option Nat) (st : List Nat),
      ∃ st2, stepsVad cfg
          ⟨decide (cfg.minSpeechFrames ≤ c), c, last, none, st, []⟩
          (framesFrom t0 per (List.replicate (j + 1) true))
        = ⟨decide (cfg.minSpeechFrames ≤ (c + j) + 1), (c + j) + 1,
            some (t0 + j * per), none, st2, []⟩ := by
  intro j
  induction j with
  | zero =>
    intro t0 c last st
    obtain ⟨st2, h⟩ := handleSpeech_shape cfg t0 c last st
    refine ⟨st2, ?_⟩
    simpa [stepsVad, framesFrom, stepVad, processFrame] using h
  | succ i ih =>
    intro t0 c last st
    obtain ⟨st2, h1⟩ := handleSpeech_shape cfg t0 c last st
    obtain ⟨st3, h2⟩ := ih (t0 + per) (c + 1) (some t0) st2
    refine ⟨st3, ?_⟩
    have hstep : stepsVad cfg
        ⟨decide (cfg.minSpeechFrames ≤ c), c, last, none, st, []⟩
        (framesFrom t0 per (List.replicate (i + 1 + 1) true))
        = stepsVad cfg
            (handleSpeechDetected cfg t0
              ⟨decide (cfg.minSpeechFrames ≤ c), c, last, none, st, []⟩)
            (framesFrom (t0 + per) per (List.replicate (i + 1) true)) := by
      simp [framesFrom, stepsVad, stepVad, processFrame, List.replicate_succ]
    rw [hstep, h1, h2]
    have h3 : c + 1 + i = c + (i + 1) := by omega
    have h4 : t0 + per + i * per = t0 + (i + 1) * per := by ring
    rw [h3, h4]

lemma stepVad_silence_inactive (cfg : VadCfg) (now : Nat) (last : Option Nat)
    (st en : List Nat) :
    stepVad cfg ⟨false, 0, last, none, st, en⟩ (now, false)
      = ⟨false, 0, last, none, st, en⟩ := by
  cases last <;> rfl

lemma stepsVad_silence_inactive (cfg : VadCfg) (per : Nat) :
    ∀ (m u : Nat) (last : Option Nat) (st en : List Nat),
      stepsVad cfg ⟨false, 0, last, none, st, en⟩
          (framesFrom u per (List.replicate m false))
        = ⟨false, 0, last, none, st, en⟩ := by
  intro m
  induction m with
  | zero => intro u last st en; rfl
  | succ i ih =>
    intro u last st en
    simp only [List.replicate_succ, framesFrom, stepsVad, List.foldl_cons]
    rw [stepVad_silence_inactive]
    exact ih (u + per) last st en

lemma framesFrom_append (per : Nat) :
    ∀ (a b : List Bool) (t0 : Nat),
      framesFrom t0 per (a ++ b)
        = framesFrom t0 per a ++ framesFrom (t0 + a.length * per) per b := by
  intro a
  induction a with
  | nil => intro b t0; simp [framesFrom]
  | cons x a ih =>
    intro b t0
    have harith : t0 + per + a.length * per = t0 + (x :: a).length * per := by
      simp only [List.length_cons]
      ring
    rw [List.cons_append]
    rw [show framesFrom t0 per (x :: (a ++ b))
        = (t0, x) :: framesFrom (t0 + per) per (a ++ b) from rfl]
    rw [ih b (t0 + per)]
    rw [show framesFrom t0 per (x :: a)
        = (t0, x) :: framesFrom (t0 + per) per a from rfl]
    rw [List.cons_append, harith]

lemma vad_armed_run (cfg : VadCfg) (per : Nat) :
    ∀ (m u L c0 : Nat) (st en : List Nat),
      L ≤ u →
      runVad cfg (framesFrom u per (List.replicate m false))
          ⟨true, c0, some L, some (L + cfg.silenceTimeout), st, en⟩
        = ⟨false, 0, some L, none, st, en ++ [L + cfg.silenceTimeout]⟩ := by
  intro m
  induction m with
  | zero =>
    intro u L c0 st en _
    simp only [List.replicate_zero, framesFrom, runVad, stepsVad, List.foldl_nil,
      finishVad, checkSilenceTimeout]
    rw [if_pos (by omega)]
    rfl
  | succ i ih =>
    intro u L c0 st en hL
    have hrun : runVad cfg
        (framesFrom u per (List.replicate (i + 1) false))
        ⟨true, c0, some L, some (L + cfg.silenceTimeout), st, en⟩
        = runVad cfg (framesFrom (u + per) per (List.replicate i false))
            (stepVad cfg ⟨true, c0, some L, some (L + cfg.silenceTimeout), st, en⟩
              (u, false)) := by
      simp [List.replicate_succ, framesFrom, runVad, stepsVad]
    rw [hrun]
    by_cases hD : L + cfg.silenceTimeout ≤ u
    · have hstep : stepVad cfg
          ⟨true, c0, some L, some (L + cfg.silenceTimeout), st, en⟩ (u, false)
          = ⟨false, 0, some L, none, st, en ++ [L + cfg.silenceTimeout]⟩ := by
        simp only [stepVad, checkSilenceTimeout]
        rw [if_pos hD, if_pos (by omega)]
        rfl
      rw [hstep]
      simp only [runVad, stepsVad_silence_inactive, finishVad]
    · have hcond : ¬ (cfg.silenceTimeout ≤ u - L) := by omega
      have hstep : stepVad cfg
          ⟨true, c0, some L, some (L + cfg.silenceTimeout), st, en⟩ (u, false)
          = ⟨true, 0, some L, some (L + cfg.silenceTimeout), st, en⟩ := by
        simp only [stepVad]
        rw [if_neg hD]
        simp only [processFrame, handleSilenceDetected]
        rw [if_neg hcond]
        simp
      rw [hstep]
      exact ih (u + per) L 0 st en (by omega)

/-- C4 confirmed.  For speech lasting k frames (enough to confirm speech
start) followed by m silent frames, one frame period apart, on_speech_end
fires exactly once, at the last speech time plus the maximum of the
silence timeout and one frame period — at least silence_duration after the
last speech frame (never earlier) and within one frame period of it — and
every speech frame cancels the pending silence timer, which the next
silent frame re-arms. -/
theorem vad_speech_end_timing (cfg : VadCfg) (per k m : Nat)
    (hN : 1 ≤ cfg.minSpeechFrames) (hk : cfg.minSpeechFrames ≤ k)
    (hm : 1 ≤ m) (hper : 1 ≤ per) (hT : 1 ≤ cfg.silenceTimeout) :
    (runVad cfg
        (framesFrom 0 per (List.replicate k true ++ List.replicate m false))
        vadStart).endEvents
      = [(k - 1) * per + max cfg.silenceTimeout per]
    ∧ cfg.silenceTimeout ≤ max cfg.silenceTimeout per
    ∧ max cfg.silenceTimeout per < cfg.silenceTimeout + per
    ∧ ∀ (now : Nat) (s : VadState),
        (handleSpeechDetected cfg now s).silenceTimer = none := by
  refine ⟨?_, le_max_left _ _, by omega, ?_⟩
  · obtain ⟨j, rfl⟩ : ∃ j, k = j + 1 := ⟨k - 1, by omega⟩
    obtain ⟨i, rfl⟩ : ∃ i, m = i + 1 := ⟨m - 1, by omega⟩
    have hd0 : decide (cfg.minSpeechFrames ≤ 0) = false := by
      simp only [decide_eq_false_iff_not]
      omega
    have hvs : (vadStart : VadState)
        = ⟨decide (cfg.minSpeechFrames ≤ 0), 0, none, none, [], []⟩ := by
      rw [hd0]
      rfl
    obtain ⟨st2, hsp⟩ := stepsVad_speech_phase cfg per j 0 0 none []
    have hS1 : stepsVad cfg vadStart
        (framesFrom 0 per (List.replicate (j + 1) true))
        = ⟨true, j + 1, some (j * per), none, st2, []⟩ := by
      rw [hvs, hsp]
      have h1 : decide (cfg.minSpeechFrames ≤ 0 + j + 1) = true := by
        simp only [decide_eq_true_eq]
        omega
      rw [h1]
      simp
    have hsplit : runVad cfg
        (framesFrom 0 per
          (List.replicate (j + 1) true ++ List.replicate (i + 1) false))
        vadStart
        = runVad cfg
            (framesFrom (0 + (j + 1) * per) per (List.replicate (i + 1) false))
            (stepsVad cfg vadStart
              (framesFrom 0 per (List.replicate (j + 1) true))) := by
      rw [framesFrom_append per _ _ 0, List.length_replicate]
      simp only [runVad, stepsVad, List.foldl_append]
    rw [hsplit, hS1, Nat.zero_add]
    have hu : (j + 1) * per = j * per + per := Nat.succ_mul j per
    have hrun1 : runVad cfg
        (framesFrom ((j + 1) * per) per (List.replicate (i + 1) false))
        ⟨true, j + 1, some (j * per), none, st2, []⟩
        = runVad cfg
            (framesFrom ((j + 1) * per + per) per (List.replicate i false))
            (stepVad cfg ⟨true, j + 1, some (j * per), none, st2, []⟩
              ((j + 1) * per, false)) := by
      simp [List.replicate_succ, framesFrom, runVad, stepsVad]
    rw [hrun1]
    by_cases htp : cfg.silenceTimeout ≤ per
    · have hcond : cfg.silenceTimeout ≤ (j + 1) * per - j * per := by omega
      have hstep : stepVad cfg ⟨true, j + 1, some (j * per), none, st2, []⟩
          ((j + 1) * per, false)
          = ⟨false, 0, some (j * per), none, st2, [(j + 1) * per]⟩ := by
        simp only [stepVad, processFrame, handleSilenceDetected]
        rw [if_pos hcond]
        rfl
      rw [hstep]
      have hdone : runVad cfg
          (framesFrom ((j + 1) * per + per) per (List.replicate i false))
          ⟨false, 0, some (j * per), none, st2, [(j + 1) * per]⟩
          = ⟨false, 0, some (j * per), none, st2, [(j + 1) * per]⟩ := by
        simp [runVad, stepsVad_silence_inactive, finishVad]
      rw [hdone]
      have hmax : max cfg.silenceTimeout per = per := by omega
      simp [hmax, hu]
    · have hcond : ¬ (cfg.silenceTimeout ≤ (j + 1) * per - j * per) := by omega
      have harm : (j + 1) * per + (cfg.silenceTimeout - ((j + 1) * per - j * per))
          = j * per + cfg.silenceTimeout := by omega
      have hstep : stepVad cfg ⟨true, j + 1, some (j * per), none, st2, []⟩
          ((j + 1) * per, false)
          = ⟨true, 0, some (j * per), some (j * per + cfg.silenceTimeout),
              st2, []⟩ := by
        simp only [stepVad, processFrame, handleSilenceDetected]
        rw [if_neg hcond]
        simp [harm]
      rw [hstep]
      rw [vad_armed_run cfg per i ((j + 1) * per + per) (j * per) 0 st2 []
        (by omega)]
      have hmax : max cfg.silenceTimeout per = cfg.silenceTimeout := by omega
      simp [hmax]
  · intro now s
    simp only [handleSpeechDetected]
    split <;> rfl

/-- C4 witness: one confirming speech frame, then three silent frames at
period 1 with timeout 2: speech end fires exactly at time 2. -/
theorem vad_speech_end_timing_witness :
    ((runVad ⟨2, 1⟩
        (framesFrom 0 1 (List.replicate 1 true ++ List.replicate 3 false))
        vadStart).endEvents
      = [(1 - 1) * 1 + max 2 1])
    ∧ (2 : Nat) ≤ max 2 1
    ∧ max 2 1 < 2 + 1
    ∧ ∀ (now : Nat) (s : VadState),
        (handleSpeechDetected ⟨2, 1⟩ now s).silenceTimer = none :=
  vad_speech_end_timing ⟨2, 1⟩ 1 1 3 (by decide) (by decide) (by decide)
    (by decide) (by decide)

/-!
### PTT controller hotkey handling — src/listen/ptt_controller.py

Keys are either special keys (pynput Key values, from KEY_MAP) or
character keys (pynput KeyCode carrying a character).  The parsed
configuration is the modifier key plus an optional character key (combos
like cmd_r+m); is_combo holds exactly when the character key is present.
The handlers _on_key_press and _on_key_release are embedded over the
controller state; start/stop callback invocations are counted.
-/

inductive PKey where
  | special : Nat → PKey
  | ch : Char → PKey
  deriving DecidableEq, Repr

/-- Embeds _get_key_char (ptt_controller.py lines 153-158). -/
def getKeyChar : PKey → Option Char
  | .ch c => some c
  | .special _ => none

/-- Parsed key configuration (ptt_controller.py lines 65-74 and 116-117). -/
structure PTTConfig where
  modifierKey : PKey
  charKey : Option Char
  deriving DecidableEq, Repr

/-- Mutable state of a PTTController relevant to key events, plus counters
for the start/stop recording callback invocations. -/
structure PTTCtrl where
  state : PTTState
  pressedKeys : List PKey
  comboTriggered : Bool
  startCalls : Nat
  stopCalls : Nat
  deriving DecidableEq, Repr

/-- Embeds _check_combo (ptt_controller.py lines 160-168). -/
def checkCombo (cfg : PTTConfig) (pressed : List PKey) : Bool :=
  match cfg.charKey with
  | none => decide (cfg.modifierKey ∈ pressed)
  | some c => decide (cfg.modifierKey ∈ pressed) && decide (PKey.ch c ∈ pressed)

/-- Set-style insertion into the pressed-key set. -/
def addKey (k : PKey) (ks : List PKey) : List PKey :=
  if k ∈ ks then ks else k :: ks

/-- Embeds the key-tracking prefix of _on_key_press (ptt_controller.py
lines 176-184): add the key to the pressed set when it is the modifier or
the configured character key. -/
def trackPress (cfg : PTTConfig) (k : PKey) (st : PTTCtrl) : PTTCtrl :=
  if k = cfg.modifierKey then
    { st with pressedKeys := addKey cfg.modifierKey st.pressedKeys }
  else
    match getKeyChar k with
    | some c =>
        if cfg.charKey = some c then
          { st with pressedKeys := addKey (PKey.ch c) st.pressedKeys }
        else st
    | none => st

/-- Embeds the trigger suffix of _on_key_press (ptt_controller.py lines
186-220): return unless the combo is complete; suppress while the
edge-trigger flag is set; otherwise set the flag and toggle between
Listening and Recording, invoking the corresponding callback. -/
def pressFire (cfg : PTTConfig) (st1 : PTTCtrl) : PTTCtrl :=
  if checkCombo cfg st1.pressedKeys = false then st1
  else if st1.comboTriggered then st1
  else
    let st2 := { st1 with comboTriggered := true }
    match st2.state with
    | .listening =>
        { st2 with state := .recording, startCalls := st2.startCalls + 1 }
    | .recording =>
        { st2 with state := .listening, stopCalls := st2.stopCalls + 1 }
    | .idle => st2

/-- Embeds _on_key_press (ptt_controller.py lines 170-220). -/
def onKeyPress (cfg : PTTConfig) (k : PKey) (st : PTTCtrl) : PTTCtrl :=
  pressFire cfg (trackPress cfg k st)

/-- Embeds the removal prefix of _on_key_release (ptt_controller.py lines
224-230): drop the modifier when it is released, otherwise drop the
released character key. -/
def trackRelease (cfg : PTTConfig) (k : PKey) (st : PTTCtrl) : PTTCtrl :=
  if k = cfg.modifierKey then
    { st with pressedKeys := st.pressedKeys.erase cfg.modifierKey }
  else
    match getKeyChar k with
    | some c => { st with pressedKeys := st.pressedKeys.erase (PKey.ch c) }
    | none => st

/-- Embeds _on_key_release (ptt_controller.py lines 222-234): after
removal, reset the edge-trigger flag when the combo is no longer
complete. -/
def onKeyRelease (cfg : PTTConfig) (k : PKey) (st : PTTCtrl) : PTTCtrl :=
  let st1 := trackRelease cfg k st
  if checkCombo cfg st1.pressedKeys = false then
    { st1 with comboTriggered := false }
  else st1

inductive KeyEvent where
  | press : PKey → KeyEvent
  | release : PKey → KeyEvent
  deriving DecidableEq, Repr

def pttStep (cfg : PTTConfig) (st : PTTCtrl) : KeyEvent → PTTCtrl
  | .press k => onKeyPress cfg k st
  | .release k => onKeyRelease cfg k st

def runPTT (cfg : PTTConfig) (evs : List KeyEvent) (st : PTTCtrl) : PTTCtrl :=
  evs.foldl (pttStep cfg) st

/-- Controller state right after start(): listening, nothing pressed, the
edge-trigger flag clear, no callback fired yet. -/
def pttListening : PTTCtrl := ⟨.listening, [], false, 0, 0⟩

/-- Physical evolution of the held-key set, independent of the controller:
a press holds the key, a release drops it. -/
def heldStep (ks : List PKey) : KeyEvent → List PKey
  | .press k => if k ∈ ks then ks else k :: ks
  | .release k => ks.erase k

/-- Number of events at which the combo transitions from not-held to held
(rising edges of the physically held combo). -/
def countRises (cfg : PTTConfig) : List PKey → List KeyEvent → Nat
  | _, [] => 0
  | ks, e :: rest =>
      let ks2 := heldStep ks e
      (if checkCombo cfg ks = false ∧ checkCombo cfg ks2 = true then 1 else 0)
        + countRises cfg ks2 rest

/-- The controller tracks only the required keys, so its pressed set and
the physically held set agree on them. -/
def keysAgree (cfg : PTTConfig) (ps ks : List PKey) : Prop :=
  (cfg.modifierKey ∈ ps ↔ cfg.modifierKey ∈ ks)
  ∧ ∀ c, cfg.charKey = some c → (PKey.ch c ∈ ps ↔ PKey.ch c ∈ ks)

lemma checkCombo_eq_of_agree (cfg : PTTConfig) (ps ks : List PKey)
    (h : keysAgree cfg ps ks) : checkCombo cfg ps = checkCombo cfg ks := by
  obtain ⟨h1, h2⟩ := h
  unfold checkCombo
  cases hck : cfg.charKey with
  | none =>
    show decide (cfg.modifierKey ∈ ps) = decide (cfg.modifierKey ∈ ks)
    exact decide_eq_decide.mpr h1
  | some c =>
    show (decide (cfg.modifierKey ∈ ps) && decide (PKey.ch c ∈ ps))
        = (decide (cfg.modifierKey ∈ ks) && decide (PKey.ch c ∈ ks))
    rw [decide_eq_decide.mpr h1, decide_eq_decide.mpr (h2 c hck)]

lemma mem_addKey (a k : PKey) (ks : List PKey) :
    a ∈ addKey k ks ↔ a = k ∨ a ∈ ks := by
  by_cases h : k ∈ ks
  · simp only [addKey, if_pos h]
    constructor
    · exact Or.inr
    · rintro (rfl | ha)
      · exact h
      · exact ha
  · simp [addKey, h, List.mem_cons]

lemma nodup_addKey (k : PKey) (ks : List PKey) (h : ks.Nodup) :
    (addKey k ks).Nodup := by
  by_cases hk : k ∈ ks
  · simpa [addKey, hk] using h
  · simp [addKey, hk, List.nodup_cons, h]

lemma agree_addKey_both (cfg : PTTConfig) (k : PKey) (ps ks : List PKey)
    (h : keysAgree cfg ps ks) :
    keysAgree cfg (addKey k ps) (addKey k ks) := by
  obtain ⟨h1, h2⟩ := h
  refine ⟨?_, fun c hc => ?_⟩
  · rw [mem_addKey, mem_addKey]
    exact or_congr Iff.rfl h1
  · rw [mem_addKey, mem_addKey]
    exact or_congr Iff.rfl (h2 c hc)

lemma agree_addKey_other (cfg : PTTConfig) (k : PKey) (ps ks : List PKey)
    (h : keysAgree cfg ps ks) (hm : k ≠ cfg.modifierKey)
    (hc : ∀ c, cfg.charKey = some c → k ≠ PKey.ch c) :
    keysAgree cfg ps (addKey k ks) := by
  obtain ⟨h1, h2⟩ := h
  refine ⟨?_, fun c hcc => ?_⟩
  · rw [mem_addKey]
    constructor
    · intro hp
      exact Or.inr (h1.mp hp)
    · rintro (heq | hk)
      · exact absurd heq.symm hm
      · exact h1.mpr hk
  · rw [mem_addKey]
    constructor
    · intro hp
      exact Or.inr ((h2 c hcc).mp hp)
    · rintro (heq | hk)
      · exact absurd heq.symm (hc c hcc)
      · exact (h2 c hcc).mpr hk

lemma agree_erase_both (cfg : PTTConfig) (k : PKey) (ps ks : List PKey)
    (h : keysAgree cfg ps ks) (hps : ps.Nodup) (hks : ks.Nodup) :
    keysAgree cfg (ps.erase k) (ks.erase k) := by
  obtain ⟨h1, h2⟩ := h
  refine ⟨?_, fun c hc => ?_⟩
  · rw [hps.mem_erase_iff, hks.mem_erase_iff]
    exact and_congr_right fun _ => h1
  · rw [hps.mem_erase_iff, hks.mem_erase_iff]
    exact and_congr_right fun _ => h2 c hc

lemma agree_erase_other (cfg : PTTConfig) (k : PKey) (ps ks : List PKey)
    (h : keysAgree cfg ps ks) (hm : k ≠ cfg.modifierKey)
    (hc : ∀ c, cfg.charKey = some c → k ≠ PKey.ch c) :
    keysAgree cfg ps (ks.erase k) := by
  obtain ⟨h1, h2⟩ := h
  refine ⟨?_, fun c hcc => ?_⟩
  · rw [List.mem_erase_of_ne (fun heq => hm heq.symm)]
    exact h1
  · rw [List.mem_erase_of_ne (fun heq => (hc c hcc) heq.symm)]
    exact h2 c hcc

lemma checkCombo_mono_add (cfg : PTTConfig) (k : PKey) (ks : List PKey)
    (h : checkCombo cfg ks = true) : checkCombo cfg (addKey k ks) = true := by
  unfold checkCombo at h ⊢
  cases hck : cfg.charKey with
  | none =>
    rw [hck] at h
    simp only [decide_eq_true_eq] at h ⊢
    rw [mem_addKey]
    exact Or.inr h
  | some c =>
    rw [hck] at h
    simp only [Bool.and_eq_true, decide_eq_true_eq] at h ⊢
    rw [mem_addKey, mem_addKey]
    exact ⟨Or.inr h.1, Or.inr h.2⟩

lemma checkCombo_anti_erase (cfg : PTTConfig) (k : PKey) (ks : List PKey)
    (h : checkCombo cfg (ks.erase k) = true) : checkCombo cfg ks = true := by
  unfold checkCombo at h ⊢
  cases hck : cfg.charKey with
  | none =>
    rw [hck] at h
    simp only [decide_eq_true_eq] at h ⊢
    exact List.mem_of_mem_erase h
  | some c =>
    rw [hck] at h
    simp only [Bool.and_eq_true, decide_eq_true_eq] at h ⊢
    exact ⟨List.mem_of_mem_erase h.1, List.mem_of_mem_erase h.2⟩

lemma trackPress_fields (cfg : PTTConfig) (k : PKey) (st : PTTCtrl) :
    (trackPress cfg k st).comboTriggered = st.comboTriggered
    ∧ (trackPress cfg k st).state = st.state
    ∧ (trackPress cfg k st).startCalls = st.startCalls
    ∧ (trackPress cfg k st).stopCalls = st.stopCalls := by
  unfold trackPress
  split
  · exact ⟨rfl, rfl, rfl, rfl⟩
  · split
    · split
      · exact ⟨rfl, rfl, rfl, rfl⟩
      · exact ⟨rfl, rfl, rfl, rfl⟩
    · exact ⟨rfl, rfl, rfl, rfl⟩

lemma trackPress_agree (cfg : PTTConfig) (k : PKey) (st : PTTCtrl)
    (ks : List PKey) (h : keysAgree cfg st.pressedKeys ks) :
    keysAgree cfg (trackPress cfg k st).pressedKeys (addKey k ks) := by
  unfold trackPress
  by_cases hmod : k = cfg.modifierKey
  · subst hmod
    rw [if_pos rfl]
    exact agree_addKey_both cfg cfg.modifierKey st.pressedKeys ks h
  · rw [if_neg hmod]
    cases k with
    | ch c =>
      show keysAgree cfg
        (if cfg.charKey = some c then
          { st with pressedKeys := addKey (PKey.ch c) st.pressedKeys }
         else st).pressedKeys (addKey (PKey.ch c) ks)
      by_cases hck : cfg.charKey = some c
      · rw [if_pos hck]
        exact agree_addKey_both cfg (PKey.ch c) st.pressedKeys ks h
      · rw [if_neg hck]
        refine agree_addKey_other cfg (PKey.ch c) st.pressedKeys ks h hmod ?_
        intro c2 hc2 heq
        cases heq
        exact hck hc2
    | special n =>
      exact agree_addKey_other cfg (PKey.special n) st.pressedKeys ks h hmod
        (fun c2 _ heq => PKey.noConfusion heq)

lemma trackPress_nodup (cfg : PTTConfig) (k : PKey) (st : PTTCtrl)
    (h : st.pressedKeys.Nodup) : (trackPress cfg k st).pressedKeys.Nodup := by
  unfold trackPress
  split
  · exact nodup_addKey _ _ h
  · split
    · split
      · exact nodup_addKey _ _ h
      · exact h
    · exact h

lemma trackPress_combo_mono (cfg : PTTConfig) (k : PKey) (st : PTTCtrl)
    (h : checkCombo cfg st.pressedKeys = true) :
    checkCombo cfg (trackPress cfg k st).pressedKeys = true := by
  unfold trackPress
  split
  · exact checkCombo_mono_add _ _ _ h
  · split
    · split
      · exact checkCombo_mono_add _ _ _ h
      · exact h
    · exact h

lemma trackRelease_fields (cfg : PTTConfig) (k : PKey) (st : PTTCtrl) :
    (trackRelease cfg k st).comboTriggered = st.comboTriggered
    ∧ (trackRelease cfg k st).state = st.state
    ∧ (trackRelease cfg k st).startCalls = st.startCalls
    ∧ (trackRelease cfg k st).stopCalls = st.stopCalls := by
  unfold trackRelease
  split
  · exact ⟨rfl, rfl, rfl, rfl⟩
  · split
    · exact ⟨rfl, rfl, rfl, rfl⟩
    · exact ⟨rfl, rfl, rfl, rfl⟩

lemma trackRelease_agree (cfg : PTTConfig) (k : PKey) (st : PTTCtrl)
    (ks : List PKey) (h : keysAgree cfg st.pressedKeys ks)
    (hps : st.pressedKeys.Nodup) (hks : ks.Nodup) :
    keysAgree cfg (trackRelease cfg k st).pressedKeys (ks.erase k) := by
  unfold trackRelease
  by_cases hmod : k = cfg.modifierKey
  · subst hmod
    rw [if_pos rfl]
    exact agree_erase_both cfg cfg.modifierKey st.pressedKeys ks h hps hks
  · rw [if_neg hmod]
    cases k with
    | ch c =>
      exact agree_erase_both cfg (PKey.ch c) st.pressedKeys ks h hps hks
    | special n =>
      exact agree_erase_other cfg (PKey.special n) st.pressedKeys ks h hmod
        (fun c2 _ heq => PKey.noConfusion heq)

lemma trackRelease_nodup (cfg : PTTConfig) (k : PKey) (st : PTTCtrl)
    (h : st.pressedKeys.Nodup) : (trackRelease cfg k st).pressedKeys.Nodup := by
  unfold trackRelease
  split
  · exact h.erase _
  · split
    · exact h.erase _
    · exact h

lemma trackRelease_combo_anti (cfg : PTTConfig) (k : PKey) (st : PTTCtrl)
    (h : checkCombo cfg (trackRelease cfg k st).pressedKeys = true) :
    checkCombo cfg st.pressedKeys = true := by
  unfold trackRelease at h
  by_cases hmod : k = cfg.modifierKey
  · rw [if_pos hmod] at h
    exact checkCombo_anti_erase cfg cfg.modifierKey _ h
  · rw [if_neg hmod] at h
    cases k with
    | ch c => exact checkCombo_anti_erase cfg (PKey.ch c) _ h
    | special n => exact h

lemma pressFire_of_not_combo (cfg : PTTConfig) (t : PTTCtrl)
    (hc : checkCombo cfg t.pressedKeys = false) : pressFire cfg t = t := by
  unfold pressFire
  rw [hc]
  simp

lemma pressFire_of_triggered (cfg : PTTConfig) (t : PTTCtrl)
    (hc : checkCombo cfg t.pressedKeys = true) (htr : t.comboTriggered = true) :
    pressFire cfg t = t := by
  unfold pressFire
  rw [hc, htr]
  simp

lemma pressFire_eq (cfg : PTTConfig) (t : PTTCtrl)
    (hc : checkCombo cfg t.pressedKeys = true) (htr : t.comboTriggered = false) :
    pressFire cfg t
      = match t.state with
        | .listening => { t with comboTriggered := true, state := .recording,
                                 startCalls := t.startCalls + 1 }
        | .recording => { t with comboTriggered := true, state := .listening,
                                 stopCalls := t.stopCalls + 1 }
        | .idle => { t with comboTriggered := true } := by
  obtain ⟨tst, tps, ttr, tsc, tpc⟩ := t
  have htr2 : ttr = false := htr
  subst htr2
  have hc2 : checkCombo cfg tps = true := hc
  unfold pressFire
  rw [hc2]
  simp only [Bool.true_eq_false, if_false]
  cases tst <;> rfl

/-- Relation between the controller state and the physically held key set:
the edge-trigger flag equals the combo check on the tracked pressed set,
the tracked set agrees with the physical set on the required keys, the
controller is active, and both sets are duplicate-free. -/
def PTTInv (cfg : PTTConfig) (st : PTTCtrl) (ks : List PKey) : Prop :=
  st.comboTriggered = checkCombo cfg st.pressedKeys
  ∧ keysAgree cfg st.pressedKeys ks
  ∧ st.state ≠ PTTState.idle
  ∧ st.pressedKeys.Nodup
  ∧ ks.Nodup

lemma ptt_step_inv (cfg : PTTConfig) (e : KeyEvent) (st : PTTCtrl)
    (ks : List PKey) (h : PTTInv cfg st ks) :
    PTTInv cfg (pttStep cfg st e) (heldStep ks e)
    ∧ (pttStep cfg st e).startCalls + (pttStep cfg st e).stopCalls
        = st.startCalls + st.stopCalls
          + (if checkCombo cfg ks = false
                ∧ checkCombo cfg (heldStep ks e) = true then 1 else 0) := by
  obtain ⟨hTrig, hAgree, hState, hNP, hNK⟩ := h
  have hC0 : checkCombo cfg st.pressedKeys = checkCombo cfg ks :=
    checkCombo_eq_of_agree cfg _ _ hAgree
  cases e with
  | press k =>
    have hHeld : heldStep ks (KeyEvent.press k) = addKey k ks := rfl
    have hA1 : keysAgree cfg (trackPress cfg k st).pressedKeys (addKey k ks) :=
      trackPress_agree cfg k st ks hAgree
    have hC1 : checkCombo cfg (trackPress cfg k st).pressedKeys
        = checkCombo cfg (addKey k ks) := checkCombo_eq_of_agree cfg _ _ hA1
    obtain ⟨hF1, hF2, hF3, hF4⟩ := trackPress_fields cfg k st
    have hNP1 : (trackPress cfg k st).pressedKeys.Nodup :=
      trackPress_nodup cfg k st hNP
    have hNK1 : (addKey k ks).Nodup := nodup_addKey k ks hNK
    have hstep : pttStep cfg st (KeyEvent.press k)
        = pressFire cfg (trackPress cfg k st) := rfl
    rw [hstep, hHeld]
    set t := trackPress cfg k st with ht
    by_cases hc1 : checkCombo cfg t.pressedKeys = true
    · by_cases hc0 : checkCombo cfg st.pressedKeys = true
      · have htrigT : t.comboTriggered = true := by rw [hF1, hTrig, hc0]
        rw [pressFire_of_triggered cfg t hc1 htrigT]
        refine ⟨⟨?_, hA1, ?_, hNP1, hNK1⟩, ?_⟩
        · rw [htrigT, hc1]
        · rw [hF2]; exact hState
        · rw [hF3, hF4]
          have e1 : checkCombo cfg ks = true := by rw [← hC0]; exact hc0
          simp [e1]
      · have hcb : checkCombo cfg st.pressedKeys = false := by
          cases hx : checkCombo cfg st.pressedKeys
          · rfl
          · exact absurd hx hc0
        have htrigF : t.comboTriggered = false := by rw [hF1, hTrig, hcb]
        have hrise : (if checkCombo cfg ks = false
            ∧ checkCombo cfg (addKey k ks) = true then 1 else 0) = 1 := by
          have e1 : checkCombo cfg ks = false := by rw [← hC0]; exact hcb
          have e2 : checkCombo cfg (addKey k ks) = true := by
            rw [← hC1]; exact hc1
          simp [e1, e2]
        rw [hrise]
        rcases hst2 : st.state with _ | _ | _
        · exact absurd hst2 hState
        · have hts : t.state = PTTState.listening := by rw [hF2, hst2]
          have hpf : pressFire cfg t
              = { t with comboTriggered := true, state := PTTState.recording,
                         startCalls := t.startCalls + 1 } := by
            rw [pressFire_eq cfg t hc1 htrigF, hts]
          rw [hpf]
          refine ⟨⟨?_, hA1, ?_, hNP1, hNK1⟩, ?_⟩
          · show true = checkCombo cfg t.pressedKeys
            exact hc1.symm
          · exact fun hcontra => PTTState.noConfusion hcontra
          · show t.startCalls + 1 + t.stopCalls = st.startCalls + st.stopCalls + 1
            rw [hF3, hF4]
            omega
        · have hts : t.state = PTTState.recording := by rw [hF2, hst2]
          have hpf : pressFire cfg t
              = { t with comboTriggered := true, state := PTTState.listening,
                         stopCalls := t.stopCalls + 1 } := by
            rw [pressFire_eq cfg t hc1 htrigF, hts]
          rw [hpf]
          refine ⟨⟨?_, hA1, ?_, hNP1, hNK1⟩, ?_⟩
          · show true = checkCombo cfg t.pressedKeys
            exact hc1.symm
          · exact fun hcontra => PTTState.noConfusion hcontra
          · show t.startCalls + (t.stopCalls + 1) = st.startCalls + st.stopCalls + 1
            rw [hF3, hF4]
            omega
    · have hc1f : checkCombo cfg t.pressedKeys = false := by
        cases hx : checkCombo cfg t.pressedKeys
        · rfl
        · exact absurd hx hc1
      have hcb : checkCombo cfg st.pressedKeys = false := by
        cases hx : checkCombo cfg st.pressedKeys
        · rfl
        · exact absurd (trackPress_combo_mono cfg k st hx) hc1
      rw [pressFire_of_not_combo cfg t hc1f]
      refine ⟨⟨?_, hA1, ?_, hNP1, hNK1⟩, ?_⟩
      · rw [hF1, hTrig, hcb, hc1f]
      · rw [hF2]; exact hState
      · rw [hF3, hF4]
        have e2 : checkCombo cfg (addKey k ks) = false := by
          rw [← hC1]; exact hc1f
        simp [e2]
  | release k =>
    have hHeld : heldStep ks (KeyEvent.release k) = ks.erase k := rfl
    have hA1 : keysAgree cfg (trackRelease cfg k st).pressedKeys (ks.erase k) :=
      trackRelease_agree cfg k st ks hAgree hNP hNK
    have hC1 : checkCombo cfg (trackRelease cfg k st).pressedKeys
        = checkCombo cfg (ks.erase k) := checkCombo_eq_of_agree cfg _ _ hA1
    obtain ⟨hF1, hF2, hF3, hF4⟩ := trackRelease_fields cfg k st
    have hNP1 : (trackRelease cfg k st).pressedKeys.Nodup :=
      trackRelease_nodup cfg k st hNP
    have hNK1 : (ks.erase k).Nodup := hNK.erase k
    have hstep : pttStep cfg st (KeyEvent.release k) = onKeyRelease cfg k st := rfl
    rw [hstep, hHeld]
    set t := trackRelease cfg k st with ht
    by_cases hc1 : checkCombo cfg t.pressedKeys = false
    · have hor : onKeyRelease cfg k st = { t with comboTriggered := false } := by
        unfold onKeyRelease
        rw [← ht]
        simp [hc1]
      rw [hor]
      refine ⟨⟨?_, hA1, ?_, hNP1, hNK1⟩, ?_⟩
      · show false = checkCombo cfg t.pressedKeys
        exact hc1.symm
      · show t.state ≠ PTTState.idle
        rw [hF2]; exact hState
      · show t.startCalls + t.stopCalls = st.startCalls + st.stopCalls + _
        rw [hF3, hF4]
        have e2 : checkCombo cfg (ks.erase k) = false := by
          rw [← hC1]; exact hc1
        simp [e2]
    · have hc1t : checkCombo cfg t.pressedKeys = true := by
        cases hx : checkCombo cfg t.pressedKeys
        · exact absurd hx hc1
        · rfl
      have hcb : checkCombo cfg st.pressedKeys = true :=
        trackRelease_combo_anti cfg k st hc1t
      have hor : onKeyRelease cfg k st = t := by
        unfold onKeyRelease
        rw [← ht]
        simp [hc1t]
      rw [hor]
      refine ⟨⟨?_, hA1, ?_, hNP1, hNK1⟩, ?_⟩
      · rw [hF1, hTrig, hcb, hc1t]
      · rw [hF2]; exact hState
      · rw [hF3, hF4]
        have e1 : checkCombo cfg ks = true := by rw [← hC0]; exact hcb
        simp [e1]

lemma ptt_run_inv (cfg : PTTConfig) :
    ∀ (evs : List KeyEvent) (st : PTTCtrl) (ks : List PKey), PTTInv cfg st ks →
      PTTInv cfg (runPTT cfg evs st) (evs.foldl heldStep ks)
      ∧ (runPTT cfg evs st).startCalls + (runPTT cfg evs st).stopCalls
          = st.startCalls + st.stopCalls + countRises cfg ks evs := by
  intro evs
  induction evs with
  | nil =>
    intro st ks h
    exact ⟨h, by simp [runPTT, countRises]⟩
  | cons e rest ih =>
    intro st ks h
    obtain ⟨h1, h2⟩ := ptt_step_inv cfg e st ks h
    obtain ⟨h3, h4⟩ := ih (pttStep cfg st e) (heldStep ks e) h1
    constructor
    · simpa [runPTT, List.foldl_cons] using h3
    · have hr : runPTT cfg (e :: rest) st = runPTT cfg rest (pttStep cfg st e) := by
        simp [runPTT]
      rw [hr, h4, h2]
      simp only [countRises]
      omega

/-- C6 confirmed.  For every key press/release sequence starting from the
listening controller, the total number of start/stop callback invocations
equals the number of rising edges of the physically held combo — the
toggle fires exactly once per continuous hold, and fires again only after
some required key is released and the combo completed anew; moreover the
edge-trigger flag always equals whether the combo is currently held. -/
theorem ptt_toggle_once_per_hold (cfg : PTTConfig) (evs : List KeyEvent) :
    (runPTT cfg evs pttListening).startCalls
        + (runPTT cfg evs pttListening).stopCalls
      = countRises cfg [] evs
    ∧ (runPTT cfg evs pttListening).comboTriggered
        = checkCombo cfg (evs.foldl heldStep []) := by
  have hempty : checkCombo cfg ([] : List PKey) = false := by
    unfold checkCombo
    cases cfg.charKey <;> simp
  have hInv : PTTInv cfg pttListening [] := by
    refine ⟨?_, ⟨Iff.rfl, fun c _ => Iff.rfl⟩, ?_, List.nodup_nil, List.nodup_nil⟩
    · show false = checkCombo cfg ([] : List PKey)
      exact hempty.symm
    · exact fun hcontra => PTTState.noConfusion hcontra
  obtain ⟨hfin, hcalls⟩ := ptt_run_inv cfg evs pttListening [] hInv
  refine ⟨?_, ?_⟩
  · simpa [pttListening] using hcalls
  · obtain ⟨hT, hA, _, _, _⟩ := hfin
    rw [hT, checkCombo_eq_of_agree cfg _ _ hA]

end VoiceSpec
